import Mathlib

/-!
Verification of the BenriNote document/state model (`src/benrinote.py`).

The Python program keeps a single JSON-shaped document in memory
(`MainWindow.state`): a to-do list with its archive, a name-keyed mapping of
"resident" categories (each with an active item list and an archive), an
ordered list of category names, and one free note.  This file gives a shallow
embedding of that document model and of the handlers that mutate it, and
proves properties of those embeddings.

Conventions of the embedding:
* Python dicts for items are modelled by the `Item` structure; a key that may
  be absent (`done`, `color`, `archived_at`, `original_category`) becomes an
  `Option` field, with `none` standing for "key absent or value None" (the
  code only ever reads these keys through `dict.get`, which conflates the
  two).
* The `categories` dict is modelled as an association list
  `List (String × Category)` in insertion order; Python dict assignment of a
  fresh key appends, assignment of an existing key updates in place, and
  `pop` removes the entry.
* GUI dialogs (`QMessageBox.question`, `QInputDialog`) become explicit
  parameters: a `Bool` for a yes/no confirmation, a `String` for entered
  text.  Wall-clock time (`time.time()`) becomes a `Nat` parameter.
* Disk writes are modelled by a tiny file-system state (`FileSys`);
  serialized JSON is an opaque `String`.
-/

/-- Model of one item dict: `{id, title, html, done?, color?, archived_at?,
original_category?}`.  `done` is used by to-do items, `archived_at` and
`original_category` only appear on archived entries. -/
structure Item where
  id : String
  title : String
  html : String
  done : Option Bool
  color : Option String
  archived_at : Option Nat
  original_category : Option String
deriving DecidableEq, Repr

/-- Model of one resident category dict: `{"items": [...], "archive": [...]}`. -/
structure Category where
  items : List Item
  archive : List Item
deriving DecidableEq, Repr

/-- Model of `MainWindow.state`: the whole in-memory document. -/
structure Doc where
  todoItems : List Item
  todoArchive : List Item
  categories : List (String × Category)
  categoryOrder : List String
  freeNote : String
deriving DecidableEq, Repr

/-- Name of the synthetic, always-last archive tab (the source uses the
Japanese label `"アーカイブ"`). -/
def archiveTabName : String := "アーカイブ"

/-- List of category names, in dict insertion order (`categories.keys()`). -/
def catNames (doc : Doc) : List String := doc.categories.map Prod.fst

/-- Dict read `categories.get(name)`: the value of the first entry with the
given key. -/
def lookupCat (cats : List (String × Category)) (name : String) : Option Category :=
  (cats.find? (fun p => p.1 == name)).map Prod.snd

/-- Dict write `categories[name] = v`: update the entry in place when the key
exists, append it otherwise. -/
def setCat (cats : List (String × Category)) (name : String) (v : Category) :
    List (String × Category) :=
  if cats.any (fun p => p.1 == name) then
    cats.map (fun p => if p.1 == name then (name, v) else p)
  else
    cats ++ [(name, v)]

/-- Dict removal `categories.pop(name)`: drop the (unique) entry with the
given key; modelled as erasing the first match. -/
def popCat (cats : List (String × Category)) (name : String) :
    List (String × Category) :=
  cats.eraseP (fun p => p.1 == name)

/-- Check whether some item of the list carries the given id. -/
def containsId (l : List Item) (x : String) : Bool := l.any (fun it => it.id == x)

/- ===================== Persistence (`save_json`, C6) ===================== -/

/-- State of the two disk names `save_json` touches for one canonical path:
the canonical file and its sibling `*.tmp` file.  `none` means the file does
not exist; a `String` is its (fully written) content. -/
structure FileSys where
  canonical : Option String
  tmp : Option String
deriving DecidableEq, Repr

/-- First half of `save_json`: `open(tmp, "w")` + `json.dump` — (re)write the
sibling temporary file with the serialized data.  The canonical file is not
touched.  A crash in the middle of this step is modelled by `writeTmp` with a
partial string: only the temporary file ever holds a partial write. -/
def writeTmp (data : String) (fs : FileSys) : FileSys :=
  { fs with tmp := some data }

/-- Second half of `save_json`: `tmp.replace(path)` — atomic rename of the
temporary file over the canonical file.  A rename of a missing temporary file
fails and changes nothing. -/
def replaceTmp (fs : FileSys) : FileSys :=
  match fs.tmp with
  | some d => { canonical := some d, tmp := none }
  | none => fs

/-- Model of `save_json(path, data)`: write the sibling temporary file, then
atomically rename it over the canonical file.  Both the document file
(`notes.json`) and the preferences file (`window.json`) are written only
through this function in the source. -/
def save_json (data : String) (fs : FileSys) : FileSys :=
  replaceTmp (writeTmp data fs)

/- ===================== Periodic save (`_save_all`, C7) ===================== -/

/-- State used to observe the periodic save timer: the in-memory document, the
last document content persisted to the data file (`none` if none yet), and a
count of disk writes performed. -/
structure SaveWorld where
  doc : Doc
  disk : Option Doc
  writeCount : Nat
deriving DecidableEq, Repr

/-- Model of `MainWindow._save_all`, the sole slot of the 2000 ms `saveTimer`:
it unconditionally calls `save_json(DATA_FILE, self.state)` — there is no
dirty flag anywhere in the source, so every tick performs a disk write of the
entire document. -/
def saveAllTick (w : SaveWorld) : SaveWorld :=
  { w with disk := some w.doc, writeCount := w.writeCount + 1 }

/-- Concrete empty document (`DEFAULT_STATE`). -/
def defaultDoc : Doc :=
  { todoItems := [], todoArchive := [], categories := [], categoryOrder := [],
    freeNote := "" }

/- ===================== Theorems: C6 ===================== -/

/-- C6 (atomic persistence): every disk write through `save_json` first
serializes completely to the sibling temporary file and then atomically
renames it over the canonical file.  Whatever the crash point — in the middle
of the temporary write (`writeTmp` of a partial string), after the temporary
write but before the rename, or after the completed rename — the canonical
file is never partial and never disappears: if it held `c` before, it holds
either `c` (crash before the rename) or the complete serialized data (after
the rename), and it is absent only if it was absent before the write began. -/
theorem save_json_atomic (fs : FileSys) (data partial_ : String) (c : String)
    (hprev : fs.canonical = some c) :
    (writeTmp partial_ fs).canonical = some c ∧
    (writeTmp data fs).canonical = some c ∧
    (save_json data fs).canonical = some data := by
  refine ⟨?_, ?_, ?_⟩
  · simpa [writeTmp] using hprev
  · simpa [writeTmp] using hprev
  · simp [save_json, writeTmp, replaceTmp]

/-- Witness for `save_json_atomic` at a concrete file system. -/
theorem save_json_atomic_witness :
    (writeTmp "par" ⟨some "old", none⟩).canonical = some "old" ∧
    (writeTmp "new" ⟨some "old", none⟩).canonical = some "old" ∧
    (save_json "new" ⟨some "old", none⟩).canonical = some "new" :=
  save_json_atomic ⟨some "old", none⟩ "new" "par" "old" rfl

/- ===================== Theorems: C7 ===================== -/

/-- C7 counterexample: the claim says a save-timer tick "writes ... if and
only if the Document is dirty; when nothing has changed since the last write,
the tick performs no disk write".  Take a world whose disk already holds
exactly the current document (nothing changed since the last write): the tick
still performs a disk write — `_save_all` has no dirty check. -/
theorem saveAllTick_not_dirty_gated :
    (⟨defaultDoc, some defaultDoc, 0⟩ : SaveWorld).disk =
      some (⟨defaultDoc, some defaultDoc, 0⟩ : SaveWorld).doc ∧
    (saveAllTick ⟨defaultDoc, some defaultDoc, 0⟩).writeCount = 1 := by
  exact ⟨rfl, rfl⟩

/-- C7 amended: interactive mutations touch only the in-memory Document (the
mutating handlers modelled below are pure functions on `Doc` and never touch
`FileSys`), and the fixed-interval 2000 ms save timer writes the entire
Document to the data file on *every* tick, whether or not anything changed
since the last write: there is no dirty flag in the source. -/
theorem saveAllTick_always_writes (w : SaveWorld) :
    (saveAllTick w).disk = some w.doc ∧
    (saveAllTick w).writeCount = w.writeCount + 1 :=
  ⟨rfl, rfl⟩

/- ===================== Detail binding (`_load_detail`, C1) ===================== -/

/-- Model of `MainWindow._detail_ref`: the entity bound to the shared detail
editor — `("todo", row)` or `("resident", cat_name, item_id)`. -/
inductive DetailRef where
  | todo (row : Nat)
  | resident (cat : String) (itemId : String)
deriving DecidableEq, Repr

/-- UI-side state the detail handlers act on: the document, the current
binding (`_detail_ref`, `none` when nothing is bound) and the rich-text
buffer of the detail editor (`detailEditor.toHtml()`). -/
structure UiState where
  doc : Doc
  ref : Option DetailRef
  buffer : String
deriving DecidableEq, Repr

/-- Write `items[row]["html"] = h` at a to-do row (no effect out of range,
matching the `0 <= row < len(...)` guard). -/
def setHtmlAt : List Item → Nat → String → List Item
  | [], _, _ => []
  | it :: t, 0, h => { it with html := h } :: t
  | it :: t, n + 1, h => it :: setHtmlAt t n h

/-- Set the html of the first item with the given id (`for item in items: if
item.get("id") == item_id: item["html"] = html; break`). -/
def updateFirstHtml : List Item → String → String → List Item
  | [], _, _ => []
  | it :: t, iid, h =>
    if it.id == iid then { it with html := h } :: t
    else it :: updateFirstHtml t iid h

/-- Model of `MainWindow._apply_detail_to_state`: write the detail editor
buffer back into the bound entity's `html` field in memory (no disk write).
A binding whose referent no longer exists (row out of range, id not found,
category gone) is silently dropped.  The source first passes the buffer
through `inline_external_images`, which rewrites only `<img>` tags whose
`src` names an existing local file — a file-system-dependent presentation
transform that is the identity in this model. -/
def applyDetailToState (ref : Option DetailRef) (buffer : String) (doc : Doc) : Doc :=
  match ref with
  | none => doc
  | some (.todo row) =>
    if row < doc.todoItems.length then
      { doc with todoItems := setHtmlAt doc.todoItems row buffer }
    else doc
  | some (.resident cat iid) =>
    match lookupCat doc.categories cat with
    | none => doc
    | some c =>
      let c' : Category := { c with items := updateFirstHtml c.items iid buffer }
      { doc with categories := setCat doc.categories cat c' }

/-- Content `_load_detail` loads into the editor for a binding: the bound
entity's stored html, or the empty string when the editor is cleared
(no binding, or referent not found). -/
def detailContent (doc : Doc) (ref : Option DetailRef) : String :=
  match ref with
  | none => ""
  | some (.todo row) =>
    match doc.todoItems.get? row with
    | some it => it.html
    | none => ""
  | some (.resident cat iid) =>
    match lookupCat doc.categories cat with
    | none => ""
    | some c =>
      match c.items.find? (fun it => it.id == iid) with
      | some it => it.html
      | none => ""

/-- Model of `MainWindow._load_detail(ref)`: when the binding changes
(`self._detail_ref != ref`), first flush the buffer into the old binding's
entity via `_apply_detail_to_state`, then rebind and load the new target's
stored html into the editor. -/
def loadDetail (newRef : Option DetailRef) (st : UiState) : UiState :=
  let doc' := if st.ref ≠ newRef then applyDetailToState st.ref st.buffer st.doc else st.doc
  { doc := doc', ref := newRef, buffer := detailContent doc' newRef }

/-- Helper: after `setHtmlAt`, the row holds the new html. -/
theorem setHtmlAt_getElem? :
    ∀ (l : List Item) (row : Nat) (h : String), row < l.length →
      ((setHtmlAt l row h)[row]?).map Item.html = some h
  | [], row, _, hl => absurd hl (by simp)
  | _ :: _, 0, h, _ => by simp [setHtmlAt]
  | _ :: t, n + 1, h, hl => by
      simpa [setHtmlAt] using setHtmlAt_getElem? t n h (by simpa using hl)

/-- Helper: `setCat` makes the written key read back the written value. -/
theorem find?_map_set (name : String) (v : Category) :
    ∀ (cats : List (String × Category)),
      cats.any (fun p => p.1 == name) = true →
      (cats.map (fun p => if p.1 == name then (name, v) else p)).find?
          (fun p => p.1 == name) = some (name, v)
  | [], h => by simp at h
  | p :: t, h => by
      by_cases hp : (p.1 == name) = true
      · have hpe : (if p.1 == name then (name, v) else p) = (name, v) := if_pos hp
        rw [List.map_cons, hpe,
          List.find?_cons_of_pos (p := fun q : String × Category => q.1 == name) _ (by simp)]
      · have hpe : (if p.1 == name then (name, v) else p) = p := if_neg hp
        have ht : t.any (fun q => q.1 == name) = true := by
          simpa [List.any_cons, hp] using h
        rw [List.map_cons, hpe,
          List.find?_cons_of_neg (p := fun q : String × Category => q.1 == name) _ hp]
        exact find?_map_set name v t ht

/-- Helper: looking up a key just written by `setCat` returns the new value. -/
theorem lookupCat_setCat_self (cats : List (String × Category)) (name : String)
    (v : Category) : lookupCat (setCat cats name v) name = some v := by
  unfold setCat
  by_cases h : cats.any (fun p => p.1 == name) = true
  · rw [if_pos h]
    unfold lookupCat
    rw [find?_map_set name v cats h]
    rfl
  · rw [if_neg h]
    unfold lookupCat
    rw [List.find?_append]
    have hnone : cats.find? (fun p => p.1 == name) = none := by
      rw [List.find?_eq_none]
      intro x hx hbeq
      exact h (List.any_eq_true.mpr ⟨x, hx, hbeq⟩)
    simp [hnone, List.find?]

/-- Helper: after `updateFirstHtml`, the first item with the id holds the new
html (provided some item has the id). -/
theorem updateFirstHtml_find? :
    ∀ (l : List Item) (iid h : String), containsId l iid = true →
      (((updateFirstHtml l iid h).find? (fun it => it.id == iid)).map Item.html)
        = some h
  | [], _, _, hc => by simp [containsId] at hc
  | it :: t, iid, h, hc => by
      by_cases hit : it.id == iid
      · simp [updateFirstHtml, List.find?, hit]
      · have ht : containsId t iid = true := by
          simpa [containsId, List.any_cons, hit] using hc
        simp [updateFirstHtml, List.find?, hit, updateFirstHtml_find? t iid h ht]

/- ===================== Theorems: C1 ===================== -/

/-- C1 (flush-before-switch): when the detail binding changes to a different
target, `_load_detail` first writes the current rich-text buffer into the
currently bound entity's stored `html` field in memory.  For a to-do binding
at an in-range row, the item at that row afterwards carries the buffer; for a
resident binding whose category and item id still resolve, the item with the
bound UUID in the bound category afterwards carries the buffer. -/
theorem load_detail_flushes (st : UiState) (newRef : Option DetailRef)
    (hne : st.ref ≠ newRef) :
    (∀ row, st.ref = some (.todo row) → row < st.doc.todoItems.length →
      ((loadDetail newRef st).doc.todoItems[row]?).map Item.html = some st.buffer) ∧
    (∀ cat iid c, st.ref = some (.resident cat iid) →
      lookupCat st.doc.categories cat = some c → containsId c.items iid = true →
      ∃ c', lookupCat (loadDetail newRef st).doc.categories cat = some c' ∧
        ((c'.items.find? (fun it => it.id == iid)).map Item.html = some st.buffer)) := by
  have hdoc : (loadDetail newRef st).doc = applyDetailToState st.ref st.buffer st.doc := by
    simp [loadDetail, hne]
  constructor
  · intro row href hrow
    rw [hdoc, href]
    simp only [applyDetailToState, if_pos hrow]
    exact setHtmlAt_getElem? st.doc.todoItems row st.buffer hrow
  · intro cat iid c href hcat hid
    rw [hdoc, href]
    simp only [applyDetailToState, hcat]
    refine ⟨{ c with items := updateFirstHtml c.items iid st.buffer }, ?_, ?_⟩
    · exact lookupCat_setCat_self st.doc.categories cat _
    · exact updateFirstHtml_find? c.items iid st.buffer hid

/-- Concrete item used by several witnesses. -/
def exItem : Item :=
  { id := "i1", title := "t", html := "old", done := none, color := none,
    archived_at := none, original_category := none }

/-- Witness for `load_detail_flushes`: a bound to-do row is flushed when the
binding switches to `none`. -/
theorem load_detail_flushes_witness :
    ((loadDetail none
        ⟨{ defaultDoc with todoItems := [exItem] }, some (.todo 0), "NEW"⟩).doc.todoItems[0]?).map
      Item.html = some "NEW" :=
  (load_detail_flushes
      ⟨{ defaultDoc with todoItems := [exItem] }, some (.todo 0), "NEW"⟩ none
      (by decide)).1 0 rfl (by decide)

/- ============ Reorder (`_update_resident_items_order_from_list`, C2) ============ -/

/-- Lookup in the id→item dict `by_id = {it["id"]: it for it in items}`: a
dict comprehension keeps the *last* binding of a duplicated key, which the
left fold reproduces. -/
def byIdLookup (items : List Item) (iid : String) : Option Item :=
  items.foldl (fun acc it => if it.id == iid then some it else acc) none

/-- Walk the UI order and pull each id's item from the lookup (`for i in
range(list_widget.count()): ... if iid and iid in by_id:
new_items.append(by_id[iid])`); the `if iid` truthiness test drops an empty
id. -/
def rebuildOrdered (items : List Item) (uiOrder : List String) : List Item :=
  uiOrder.filterMap (fun iid => if iid = "" then none else byIdLookup items iid)

/-- Model of `MainWindow._update_resident_items_order_from_list` restricted
to its effect on the category's stored item sequence: rebuild the sequence
from the UI order, install it when the rebuilt count equals both the old
count and the UI count, and keep the old sequence otherwise (the handler then
rebuilds the whole presentation from the document instead). -/
def updateResidentItemsOrder (items : List Item) (uiOrder : List String) : List Item :=
  let newItems := rebuildOrdered items uiOrder
  if newItems.length = items.length ∧ newItems.length = uiOrder.length then newItems
  else items

/-- Helper: a successful dict lookup returns an element of the list carrying
the looked-up id. -/
theorem byIdLookup_some :
    ∀ (items : List Item) (iid : String) (acc : Option Item) (it : Item),
      items.foldl (fun acc it => if it.id == iid then some it else acc) acc = some it →
      (it ∈ items ∧ it.id = iid) ∨ acc = some it
  | [], _, acc, it, h => Or.inr h
  | x :: t, iid, acc, it, h => by
      rcases byIdLookup_some t iid _ it h with hmem | hacc
      · exact Or.inl ⟨List.mem_cons_of_mem x hmem.1, hmem.2⟩
      · have hacc2 : (if (x.id == iid) = true then some x else acc) = some it := hacc
        by_cases hx : (x.id == iid) = true
        · rw [if_pos hx] at hacc2
          cases hacc2
          exact Or.inl ⟨List.mem_cons_self x t, by simpa using hx⟩
        · rw [if_neg hx] at hacc2
          exact Or.inr hacc2

/-- Helper: every item produced by the rebuild comes from the old sequence. -/
theorem rebuildOrdered_subset (items : List Item) (ui : List String) :
    ∀ it ∈ rebuildOrdered items ui, it ∈ items := by
  intro it hit
  rcases List.mem_filterMap.mp hit with ⟨iid, _, hf⟩
  by_cases he : iid = ""
  · rw [if_pos he] at hf; cases hf
  · rw [if_neg he] at hf
    rcases byIdLookup_some items iid none it hf with hmem | hacc
    · exact hmem.1
    · cases hacc

/-- Helper: when the rebuild loses nothing (its length equals the UI length),
every UI id was found and the rebuilt items carry exactly the UI ids in
order. -/
theorem rebuildOrdered_map_id :
    ∀ (ui : List String) (items : List Item),
      (rebuildOrdered items ui).length = ui.length →
      (rebuildOrdered items ui).map Item.id = ui
  | [], _, _ => rfl
  | iid :: t, items, h => by
      by_cases hnone : (if iid = "" then none else byIdLookup items iid) = none
      · exfalso
        have hr : rebuildOrdered items (iid :: t) = rebuildOrdered items t := by
          simp [rebuildOrdered, List.filterMap_cons, hnone]
        rw [hr] at h
        have hle := List.length_filterMap_le
          (fun iid => if iid = "" then none else byIdLookup items iid) t
        rw [rebuildOrdered, List.length_cons] at h
        omega
      · rcases Option.ne_none_iff_exists'.mp hnone with ⟨it, hit⟩
        have hr : rebuildOrdered items (iid :: t) = it :: rebuildOrdered items t := by
          simp [rebuildOrdered, List.filterMap_cons, hit]
        have hid : it.id = iid := by
          by_cases he : iid = ""
          · rw [if_pos he] at hit; cases hit
          · rw [if_neg he] at hit
            rcases byIdLookup_some items iid none it hit with hmem | hacc
            · exact hmem.2
            · cases hacc
        rw [hr] at h ⊢
        have ht : (rebuildOrdered items t).map Item.id = t :=
          rebuildOrdered_map_id t items (by simpa using h)
        simp [hid, ht]

/- ===================== Theorems: C2 ===================== -/

/-- Concrete item with id `"1"`. -/
def exItemA : Item :=
  { id := "1", title := "a", html := "", done := none, color := none,
    archived_at := none, original_category := none }

/-- Concrete item with id `"2"`. -/
def exItemB : Item :=
  { id := "2", title := "b", html := "", done := none, color := none,
    archived_at := none, original_category := none }

/-- C2 counterexample: for the stored sequence `[a(id 1), b(id 2)]` and the
UI order `["1", "1"]`, the rebuilt count (2) equals both the old count and
the UI count, yet the installed sequence is `[a, a]` — item `b` is lost and
item `a` duplicated, so the result is *not* a permutation of the original
items even though the counts agree.  (A drag-and-drop of the displayed rows
can only produce a duplicate-free UI order, but the claim quantifies over
every UI order of item ids.) -/
theorem updateResidentItemsOrder_counterexample :
    (rebuildOrdered [exItemA, exItemB] ["1", "1"]).length = 2 ∧
    [exItemA, exItemB].length = 2 ∧ (["1", "1"] : List String).length = 2 ∧
    updateResidentItemsOrder [exItemA, exItemB] ["1", "1"] = [exItemA, exItemA] ∧
    ¬ ([exItemA, exItemA].Perm [exItemA, exItemB]) := by
  refine ⟨by decide, by decide, by decide, by decide, by decide⟩

/-- C2 amended: provided the UI order lists pairwise-distinct ids (as every
drag-reorder of the displayed rows does), the reorder operation is faithful:
when the rebuilt count equals both the old count and the UI count, the
installed sequence is exactly that permutation of the original items (no item
gained, lost, or duplicated); and whenever the counts disagree, the stored
sequence is left unchanged (the handler rebuilds the presentation from the
canonical document instead). -/
theorem updateResidentItemsOrder_amended (items : List Item) (ui : List String)
    (hnd : ui.Nodup) :
    (((rebuildOrdered items ui).length = items.length ∧
        (rebuildOrdered items ui).length = ui.length) →
      (updateResidentItemsOrder items ui).Perm items) ∧
    (¬ ((rebuildOrdered items ui).length = items.length ∧
        (rebuildOrdered items ui).length = ui.length) →
      updateResidentItemsOrder items ui = items) := by
  constructor
  · intro hc
    have hval : updateResidentItemsOrder items ui = rebuildOrdered items ui := by
      rw [updateResidentItemsOrder]
      exact if_pos hc
    rw [hval]
    have hmap : (rebuildOrdered items ui).map Item.id = ui :=
      rebuildOrdered_map_id ui items hc.2
    have hnodup : (rebuildOrdered items ui).Nodup :=
      List.Nodup.of_map Item.id (by rw [hmap]; exact hnd)
    have hsub : rebuildOrdered items ui ⊆ items := rebuildOrdered_subset items ui
    exact (hnodup.subperm hsub).perm_of_length_le (le_of_eq hc.1.symm)
  · intro hc
    rw [updateResidentItemsOrder]
    exact if_neg hc

/-- Witness for `updateResidentItemsOrder_amended`: swapping two items
through the reorder really permutes the stored sequence. -/
theorem updateResidentItemsOrder_amended_witness :
    (updateResidentItemsOrder [exItemA, exItemB] ["2", "1"]).Perm
      [exItemA, exItemB] :=
  (updateResidentItemsOrder_amended [exItemA, exItemB] ["2", "1"]
      (by decide)).1 ⟨by decide, by decide⟩

/- ============ Archive / restore (`_archive_done`, `_archive_resident_item`,
`_restore_resident_archive_item`, C3/C4/C5) ============ -/

/-- Python truthiness of `it.get("done")`. -/
def doneFlag (it : Item) : Bool := it.done.getD false

/-- Archive entry built by `_archive_done` for one done to-do item: a fresh
dict `{"id": it["id"], "title": it["title"], "archived_at": now, "html":
it["html"], "color": it.get("color")}` — note that the `done` key is not
carried over. -/
def toArchivedTodo (now : Nat) (it : Item) : Item :=
  { id := it.id, title := it.title, html := it.html, done := none,
    color := it.color, archived_at := some now, original_category := none }

/-- Model of `MainWindow._archive_done`: append an archive entry for every
done to-do item (stamped with the shared current time), then drop the done
items from the active list.  (The handler first flushes the detail buffer via
`_apply_detail_to_state`; the model takes the post-flush document.) -/
def archiveDone (now : Nat) (doc : Doc) : Doc :=
  { doc with
    todoArchive := doc.todoArchive ++
      (doc.todoItems.filter doneFlag).map (toArchivedTodo now),
    todoItems := doc.todoItems.filter (fun it => !doneFlag it) }

/-- Stamps added by `_archive_resident_item` before appending to the
category's archive: `archived_at = int(time.time())` and `original_category =
cat_name`; every other field of the popped item is kept. -/
def stampResident (cat : String) (now : Nat) (it : Item) : Item :=
  { it with archived_at := some now, original_category := some cat }

/-- Model of `MainWindow._archive_resident_item`: locate the selected item by
UUID in the category's active list; if absent, do nothing; otherwise ask for
confirmation and, when confirmed, pop the item (first index with the id),
stamp it, and append it to the category's archive. -/
def archiveResidentItem (catName itemId : String) (now : Nat) (confirmed : Bool)
    (doc : Doc) : Doc :=
  match lookupCat doc.categories catName with
  | none => doc
  | some c =>
    match c.items.find? (fun it => it.id == itemId) with
    | none => doc
    | some it =>
      if confirmed then
        let c' : Category :=
          { items := c.items.eraseP (fun x => x.id == itemId),
            archive := c.archive ++ [stampResident catName now it] }
        { doc with categories := setCat doc.categories catName c' }
      else doc

/-- Restore drops the archive-only keys: `{k: v for k, v in
archive_item.items() if k not in ["archived_at", "original_category"]}`. -/
def stripArchiveFields (it : Item) : Item :=
  { it with archived_at := none, original_category := none }

/-- Outcome reported by the restore handler: the mutation was applied, the
target category no longer exists (a user-visible warning dialog), or the user
declined the confirmation dialog. -/
inductive RestoreStatus where
  | ok
  | noCategory
  | cancelled
deriving DecidableEq, Repr

/-- Model of `MainWindow._restore_resident_archive_item` for a selected
archive entry: require `original_category` to be present, non-empty (Python
`not orig_cat` truthiness) and to name an existing category — otherwise
report an error and change nothing; after confirmation, remove every entry
with the item's id from that category's archive and append the entry, minus
the archive-only fields, to the category's active items. -/
def restoreResidentArchiveItem (entry : Item) (confirmed : Bool) (doc : Doc) :
    Doc × RestoreStatus :=
  match entry.original_category with
  | none => (doc, .noCategory)
  | some orig =>
    if orig = "" then (doc, .noCategory)
    else
      match lookupCat doc.categories orig with
      | none => (doc, .noCategory)
      | some c =>
        if confirmed then
          let c' : Category :=
            { items := c.items ++ [stripArchiveFields entry],
              archive := c.archive.filter (fun it => !(it.id == entry.id)) }
          ({ doc with categories := setCat doc.categories orig c' }, .ok)
        else (doc, .cancelled)

/-- Helper: unfold `containsId` into an existential. -/
theorem containsId_iff {l : List Item} {x : String} :
    containsId l x = true ↔ ∃ it ∈ l, it.id = x := by
  simp [containsId, List.any_eq_true]

/-- Helper: unfold `containsId = false` into a universal. -/
theorem containsId_false_iff {l : List Item} {x : String} :
    containsId l x = false ↔ ∀ it ∈ l, it.id ≠ x := by
  rw [← Bool.not_eq_true, containsId_iff]
  push_neg
  rfl

/-- Helper: a member with the id witnesses `containsId`. -/
theorem containsId_of_mem {l : List Item} {it : Item} {x : String}
    (h : it ∈ l) (hid : it.id = x) : containsId l x = true :=
  containsId_iff.mpr ⟨it, h, hid⟩

/-- Helper: in a list whose ids are pairwise distinct, two members with the
same id are the same item. -/
theorem nodup_id_unique :
    ∀ {l : List Item}, (l.map Item.id).Nodup →
      ∀ {a b : Item}, a ∈ l → b ∈ l → a.id = b.id → a = b
  | [], _, _, _, ha, _, _ => absurd ha (List.not_mem_nil _)
  | x :: t, h, a, b, ha, hb, hab => by
      rw [List.map_cons, List.nodup_cons] at h
      rcases List.mem_cons.mp ha with rfl | hat
      · rcases List.mem_cons.mp hb with rfl | hbt
        · rfl
        · exact absurd (hab ▸ List.mem_map_of_mem Item.id hbt) h.1
      · rcases List.mem_cons.mp hb with rfl | hbt
        · exact absurd (hab ▸ List.mem_map_of_mem Item.id hat) h.1
        · exact nodup_id_unique h.2 hat hbt hab

/-- Helper: erasing the (unique) item with an id removes that id entirely. -/
theorem eraseP_containsId_false {l : List Item} {x : String}
    (hnd : (l.map Item.id).Nodup) :
    containsId (l.eraseP (fun it => it.id == x)) x = false := by
  rw [containsId_false_iff]
  intro it' hit' hid'
  by_cases hc : containsId l x = true
  · rcases containsId_iff.mp hc with ⟨it0, hmem0, hid0⟩
    rcases List.exists_of_eraseP (p := fun it => it.id == x) hmem0
        (by simp [hid0]) with
      ⟨a', l₁, l₂, hnot1, hpa, hleq, herase⟩
    rw [herase] at hit'
    rcases List.mem_append.mp hit' with h1 | h2
    · exact hnot1 it' h1 (by simpa using hid')
    · have ha'id : a'.id = x := by simpa using hpa
      have : a'.id ∈ l₂.map Item.id := by
        rw [ha'id, ← hid']
        exact List.mem_map_of_mem Item.id h2
      rw [hleq] at hnd
      simp only [List.map_append, List.map_cons, List.nodup_append,
        List.nodup_cons] at hnd
      exact hnd.2.1.1 this
  · have hnone : ∀ a ∈ l, ¬((fun it => it.id == x) a = true) := by
      intro a ha hax
      exact hc (containsId_of_mem ha (by simpa using hax))
    rw [List.eraseP_of_forall_not hnone] at hit'
    exact (containsId_false_iff.mp (Bool.eq_false_iff.mpr hc) it' hit') hid'

/- ===================== Theorems: C3 ===================== -/

/-- C3 (no duplication): assuming the document invariants of §3 (pairwise
distinct ids in the active list, and no id shared between an active list and
its archive), after each of the three transitions — to-do archive-done,
resident item archive, resident archive restore — every id that was present
in the owning collection is afterwards carried by an item in exactly one of
the collection's active list and archive list: never both, never neither. -/
theorem archive_restore_no_duplication (doc : Doc) (now : Nat) :
    (∀ x, (doc.todoItems.map Item.id).Nodup →
      (∀ y, containsId doc.todoItems y = true → containsId doc.todoArchive y = false) →
      (containsId doc.todoItems x = true ∨ containsId doc.todoArchive x = true) →
      (containsId (archiveDone now doc).todoItems x = true ↔
        ¬ containsId (archiveDone now doc).todoArchive x = true)) ∧
    (∀ catName itemId c x, lookupCat doc.categories catName = some c →
      (c.items.map Item.id).Nodup →
      (∀ y, containsId c.items y = true → containsId c.archive y = false) →
      containsId c.items itemId = true →
      (containsId c.items x = true ∨ containsId c.archive x = true) →
      ∃ c', lookupCat (archiveResidentItem catName itemId now true doc).categories
          catName = some c' ∧
        (containsId c'.items x = true ↔ ¬ containsId c'.archive x = true)) ∧
    (∀ entry orig c x, entry.original_category = some orig → orig ≠ "" →
      lookupCat doc.categories orig = some c →
      (∀ y, containsId c.items y = true → containsId c.archive y = false) →
      (containsId c.items x = true ∨ containsId c.archive x = true ∨ x = entry.id) →
      ∃ c', lookupCat (restoreResidentArchiveItem entry true doc).1.categories
          orig = some c' ∧
        (containsId c'.items x = true ↔ ¬ containsId c'.archive x = true)) := by
  refine ⟨?_, ?_, ?_⟩
  · -- to-do archive-done
    intro x hnd hdisj hpre
    have hA : (archiveDone now doc).todoItems =
        doc.todoItems.filter (fun it => !doneFlag it) := rfl
    have hB : (archiveDone now doc).todoArchive = doc.todoArchive ++
        (doc.todoItems.filter doneFlag).map (toArchivedTodo now) := rfl
    rw [hA, hB]
    by_cases hitems : containsId doc.todoItems x = true
    · rcases containsId_iff.mp hitems with ⟨it0, hmem0, hid0⟩
      by_cases hdone : doneFlag it0 = true
      · have h1 : containsId (doc.todoItems.filter (fun it => !doneFlag it)) x
            = false := by
          rw [containsId_false_iff]
          intro it' hit' hid'
          have hm := List.mem_filter.mp hit'
          have heq : it' = it0 :=
            nodup_id_unique hnd hm.1 hmem0 (hid'.trans hid0.symm)
          have := hm.2
          rw [heq, hdone] at this
          simp at this
        have h2 : containsId (doc.todoArchive ++
            (doc.todoItems.filter doneFlag).map (toArchivedTodo now)) x = true := by
          refine containsId_iff.mpr ⟨toArchivedTodo now it0, ?_, ?_⟩
          · exact List.mem_append_right _
              (List.mem_map_of_mem _ (List.mem_filter.mpr ⟨hmem0, hdone⟩))
          · simpa [toArchivedTodo] using hid0
        rw [h1, h2]
        simp
      · have hf : doneFlag it0 = false := Bool.eq_false_iff.mpr hdone
        have h1 : containsId (doc.todoItems.filter (fun it => !doneFlag it)) x
            = true :=
          containsId_of_mem (List.mem_filter.mpr ⟨hmem0, by rw [hf]; rfl⟩) hid0
        have h2 : containsId (doc.todoArchive ++
            (doc.todoItems.filter doneFlag).map (toArchivedTodo now)) x = false := by
          rw [containsId_false_iff]
          intro it' hit' hid'
          rcases List.mem_append.mp hit' with h | h
          · have := containsId_of_mem h hid'
            rw [hdisj x hitems] at this
            cases this
          · rcases List.mem_map.mp h with ⟨it1, hmem1, heq⟩
            have hid1 : it1.id = x := by
              rw [← hid', ← heq]
              simp [toArchivedTodo]
            have hm1 := List.mem_filter.mp hmem1
            have heq1 : it1 = it0 :=
              nodup_id_unique hnd hm1.1 hmem0 (hid1.trans hid0.symm)
            rw [heq1] at hm1
            exact hdone hm1.2
        rw [h1, h2]
        simp
    · have hin : containsId doc.todoArchive x = true := by
        rcases hpre with h | h
        · exact absurd h hitems
        · exact h
      have h1 : containsId (doc.todoItems.filter (fun it => !doneFlag it)) x
          = false := by
        rw [containsId_false_iff]
        intro it' hit' hid'
        exact hitems (containsId_of_mem (List.mem_filter.mp hit').1 hid')
      have h2 : containsId (doc.todoArchive ++
          (doc.todoItems.filter doneFlag).map (toArchivedTodo now)) x = true := by
        rcases containsId_iff.mp hin with ⟨it1, hm1, hi1⟩
        exact containsId_of_mem (List.mem_append_left _ hm1) hi1
      rw [h1, h2]
      simp
  · -- resident item archive
    intro catName itemId c x hlook hnd hdisj hfindC hpre
    have hsome : (c.items.find? (fun it => it.id == itemId)).isSome := by
      rw [List.find?_isSome]
      rcases containsId_iff.mp hfindC with ⟨it0, hm, hi⟩
      exact ⟨it0, hm, by simp [hi]⟩
    rcases Option.isSome_iff_exists.mp hsome with ⟨it0, hfind⟩
    have hmem0 : it0 ∈ c.items := List.mem_of_find?_eq_some hfind
    have hid0 : it0.id = itemId := by simpa using List.find?_some hfind
    have hop : archiveResidentItem catName itemId now true doc =
        { doc with categories := setCat doc.categories catName ⟨c.items.eraseP (fun xx => xx.id == itemId), c.archive ++ [stampResident catName now it0]⟩ } := by
      simp [archiveResidentItem, hlook, hfind]
    refine ⟨⟨c.items.eraseP (fun xx => xx.id == itemId),
        c.archive ++ [stampResident catName now it0]⟩, ?_, ?_⟩
    · rw [hop]
      exact lookupCat_setCat_self doc.categories catName _
    · by_cases hx : x = itemId
      · subst hx
        have h1 := eraseP_containsId_false (x := x) hnd
        have h2 : containsId (c.archive ++ [stampResident catName now it0]) x
            = true := by
          refine containsId_iff.mpr ⟨stampResident catName now it0, ?_, ?_⟩
          · exact List.mem_append_right _ (List.mem_singleton_self _)
          · simpa [stampResident] using hid0
        rw [h1, h2]
        simp
      · by_cases hxi : containsId c.items x = true
        · rcases containsId_iff.mp hxi with ⟨it1, hm1, hi1⟩
          have hnp : ¬((fun xx => xx.id == itemId) it1 = true) := by
            simp only [beq_iff_eq, hi1]
            exact hx
          have h1 : containsId (c.items.eraseP (fun xx => xx.id == itemId)) x
              = true :=
            containsId_of_mem
              ((List.mem_eraseP_of_neg (p := fun xx => xx.id == itemId)
                (a := it1) hnp).mpr hm1) hi1
          have h2 : containsId (c.archive ++ [stampResident catName now it0]) x
              = false := by
            rw [containsId_false_iff]
            intro it' hit' hid'
            rcases List.mem_append.mp hit' with h | h
            · have := containsId_of_mem h hid'
              rw [hdisj x hxi] at this
              cases this
            · rw [List.mem_singleton.mp h] at hid'
              have : it0.id = x := by simpa [stampResident] using hid'
              exact hx (this.symm.trans hid0)
          rw [h1, h2]
          simp
        · have hin : containsId c.archive x = true := by
            rcases hpre with h | h
            · exact absurd h hxi
            · exact h
          have h1 : containsId (c.items.eraseP (fun xx => xx.id == itemId)) x
              = false := by
            rw [containsId_false_iff]
            intro it' hit' hid'
            exact hxi (containsId_of_mem (List.mem_of_mem_eraseP hit') hid')
          have h2 : containsId (c.archive ++ [stampResident catName now it0]) x
              = true := by
            rcases containsId_iff.mp hin with ⟨it1, hm1, hi1⟩
            exact containsId_of_mem (List.mem_append_left _ hm1) hi1
          rw [h1, h2]
          simp
  · -- resident archive restore
    intro entry orig c x hoc hne hlook hdisj hpre
    have hop : restoreResidentArchiveItem entry true doc =
        ({ doc with categories := setCat doc.categories orig ⟨c.items ++ [stripArchiveFields entry], c.archive.filter (fun it => !(it.id == entry.id))⟩ }, .ok) := by
      simp [restoreResidentArchiveItem, hoc, hne, hlook]
    refine ⟨⟨c.items ++ [stripArchiveFields entry],
        c.archive.filter (fun it => !(it.id == entry.id))⟩, ?_, ?_⟩
    · rw [hop]
      exact lookupCat_setCat_self doc.categories orig _
    · by_cases hx : x = entry.id
      · subst hx
        have h1 : containsId (c.items ++ [stripArchiveFields entry]) entry.id
            = true := by
          refine containsId_iff.mpr ⟨stripArchiveFields entry, ?_, ?_⟩
          · exact List.mem_append_right _ (List.mem_singleton_self _)
          · simp [stripArchiveFields]
        have h2 : containsId
            (c.archive.filter (fun it => !(it.id == entry.id))) entry.id
            = false := by
          rw [containsId_false_iff]
          intro it' hit' hid'
          have := (List.mem_filter.mp hit').2
          rw [hid'] at this
          simp at this
        rw [h1, h2]
        simp
      · by_cases hxi : containsId c.items x = true
        · have h1 : containsId (c.items ++ [stripArchiveFields entry]) x
              = true := by
            rcases containsId_iff.mp hxi with ⟨it1, hm1, hi1⟩
            exact containsId_of_mem (List.mem_append_left _ hm1) hi1
          have h2 : containsId
              (c.archive.filter (fun it => !(it.id == entry.id))) x = false := by
            rw [containsId_false_iff]
            intro it' hit' hid'
            have := containsId_of_mem (List.mem_filter.mp hit').1 hid'
            rw [hdisj x hxi] at this
            cases this
          rw [h1, h2]
          simp
        · have hin : containsId c.archive x = true := by
            rcases hpre with h | h
            · exact absurd h hxi
            · rcases h with h | h
              · exact h
              · exact absurd h hx
          have h1 : containsId (c.items ++ [stripArchiveFields entry]) x
              = false := by
            rw [containsId_false_iff]
            intro it' hit' hid'
            rcases List.mem_append.mp hit' with h | h
            · exact hxi (containsId_of_mem h hid')
            · rw [List.mem_singleton.mp h] at hid'
              exact hx (by simpa [stripArchiveFields] using hid'.symm)
          have h2 : containsId
              (c.archive.filter (fun it => !(it.id == entry.id))) x = true := by
            rcases containsId_iff.mp hin with ⟨it1, hm1, hi1⟩
            refine containsId_of_mem (List.mem_filter.mpr ⟨hm1, ?_⟩) hi1
            simp only [beq_iff_eq, hi1, Bool.not_eq_true']
            exact decide_eq_false (fun hcc => hx hcc)
          rw [h1, h2]
          simp

/-- Concrete done to-do item. -/
def exDoneItem : Item :=
  { id := "d1", title := "x", html := "h", done := some true, color := none,
    archived_at := none, original_category := none }

/-- Witness for `archive_restore_no_duplication`: archiving the single done
to-do moves its id into exactly the archive side. -/
theorem archive_restore_no_duplication_witness :
    containsId (archiveDone 3 { defaultDoc with todoItems := [exDoneItem] }).todoItems
        "d1" = true ↔
      ¬ containsId (archiveDone 3 { defaultDoc with todoItems := [exDoneItem] }).todoArchive
        "d1" = true :=
  (archive_restore_no_duplication { defaultDoc with todoItems := [exDoneItem] } 3).1
    "d1" (by decide) (fun _ _ => rfl) (Or.inl (by decide))

/- ===================== Theorems: C4 ===================== -/

/-- C4 counterexample: the claim says the appended archive entry preserves
"all other Item fields".  Archive the done to-do `exDoneItem` (which has
`done = True`): `_archive_done` builds a fresh entry carrying only id, title,
html and color, so the entry's `done` key is gone — the entry is *not* the
item plus the `archived_at` stamp. -/
theorem archive_done_drops_done_flag :
    (archiveDone 5 { defaultDoc with todoItems := [exDoneItem] }).todoArchive =
      [toArchivedTodo 5 exDoneItem] ∧
    exDoneItem.done = some true ∧
    (toArchivedTodo 5 exDoneItem).done = none ∧
    toArchivedTodo 5 exDoneItem ≠ { exDoneItem with archived_at := some 5 } := by
  refine ⟨by decide, by decide, by decide, by decide⟩

/-- Concrete document with one resident category `"C"` holding `exItemA`. -/
def exDocResC4 : Doc :=
  { defaultDoc with categories := [("C", ⟨[exItemA], []⟩)] }

/-- C4 amended: archiving moves, not copies.  A done to-do is removed from
the active list and the appended entry keeps its id, title, html and color
and is stamped with `archived_at = now` — but its `done` flag is dropped (the
entry is rebuilt without the `done` key).  A resident item is popped from its
active list and the very same item, all fields preserved, is appended to the
category's archive with `archived_at = now` and `original_category` set to
the owning category's name. -/
theorem archive_moves_amended (doc : Doc) (now : Nat) :
    ((archiveDone now doc).todoItems =
      doc.todoItems.filter (fun it => !doneFlag it)) ∧
    ((archiveDone now doc).todoArchive = doc.todoArchive ++
      (doc.todoItems.filter doneFlag).map (toArchivedTodo now)) ∧
    (∀ it, toArchivedTodo now it = { id := it.id, title := it.title, html := it.html, done := none, color := it.color, archived_at := some now, original_category := none }) ∧
    (∀ catName itemId c it, lookupCat doc.categories catName = some c →
      c.items.find? (fun xx => xx.id == itemId) = some it →
      lookupCat (archiveResidentItem catName itemId now true doc).categories
          catName =
        some ⟨c.items.eraseP (fun xx => xx.id == itemId), c.archive ++ [{ it with archived_at := some now, original_category := some catName }]⟩) := by
  refine ⟨rfl, rfl, fun it => rfl, ?_⟩
  intro catName itemId c it hlook hfind
  have hop : archiveResidentItem catName itemId now true doc =
      { doc with categories := setCat doc.categories catName ⟨c.items.eraseP (fun xx => xx.id == itemId), c.archive ++ [stampResident catName now it]⟩ } := by
    simp [archiveResidentItem, hlook, hfind]
  rw [hop]
  exact lookupCat_setCat_self doc.categories catName _

/-- Witness for `archive_moves_amended`: archiving the only item of category
`"C"` pops it from the active list and appends the stamped item to the
archive. -/
theorem archive_moves_amended_witness :
    lookupCat (archiveResidentItem "C" "1" 7 true exDocResC4).categories "C" =
      some ⟨[exItemA].eraseP (fun xx => xx.id == "1"), [] ++ [{ exItemA with archived_at := some 7, original_category := some "C" }]⟩ :=
  (archive_moves_amended exDocResC4 7).2.2.2 "C" "1" ⟨[exItemA], []⟩ exItemA
    (by decide) (by decide)

/- ===================== Theorems: C5 ===================== -/


/-- Helper: mapping a function over an option keeps its presence. -/
theorem isSome_map_snd (o : Option (String × Category)) :
    (o.map Prod.snd).isSome = o.isSome := by
  cases o <;> rfl

/-- Helper: a category name resolves exactly when it occurs among
`categories.keys()`. -/
theorem mem_catNames_iff (doc : Doc) (name : String) :
    name ∈ catNames doc ↔ (lookupCat doc.categories name).isSome = true := by
  rw [catNames, lookupCat, isSome_map_snd, List.find?_isSome]
  simp [beq_iff_eq]

/-- C5 (restore contract with guard): for a confirmed restore of a resident
archived entry, the restore succeeds exactly when `original_category` names a
category that still exists (under the app invariant that category names are
non-empty); otherwise a user-visible error is reported (`noCategory`) and the
document is left unchanged — no entry removed, nothing appended; on success
every entry carrying the item's id is removed from that category's archive
and the entry, stripped of exactly the `archived_at` and `original_category`
fields, is appended to the category's active items. -/
theorem restore_guard (doc : Doc) (entry : Item)
    (hnames : ∀ n ∈ catNames doc, n ≠ "") :
    ((restoreResidentArchiveItem entry true doc).2 = .ok ↔
      ∃ orig, entry.original_category = some orig ∧ orig ∈ catNames doc) ∧
    ((restoreResidentArchiveItem entry true doc).2 = .noCategory ↔
      ¬ ∃ orig, entry.original_category = some orig ∧ orig ∈ catNames doc) ∧
    ((restoreResidentArchiveItem entry true doc).2 ≠ .ok →
      (restoreResidentArchiveItem entry true doc).1 = doc) ∧
    (∀ orig c, entry.original_category = some orig →
      lookupCat doc.categories orig = some c →
      (restoreResidentArchiveItem entry true doc).1 =
        { doc with categories := setCat doc.categories orig ⟨c.items ++ [stripArchiveFields entry], c.archive.filter (fun it => !(it.id == entry.id))⟩ } ∧
      stripArchiveFields entry = { entry with archived_at := none, original_category := none }) := by
  rcases hoc : entry.original_category with _ | orig
  · have hres : restoreResidentArchiveItem entry true doc = (doc, .noCategory) := by
      simp [restoreResidentArchiveItem, hoc]
    refine ⟨by rw [hres]; simp, by rw [hres]; simp, fun _ => by rw [hres], ?_⟩
    intro orig c hoc' _
    cases hoc'
  · by_cases he : orig = ""
    · subst he
      have hnm : ("" : String) ∉ catNames doc := fun hm => hnames "" hm rfl
      have hres : restoreResidentArchiveItem entry true doc = (doc, .noCategory) := by
        simp [restoreResidentArchiveItem, hoc]
      refine ⟨by rw [hres]; simp [hnm], by rw [hres]; simp [hnm],
        fun _ => by rw [hres], ?_⟩
      intro orig' c hoc' hl
      have horig : orig' = "" := by
        injection hoc' with h
        exact h.symm
      subst horig
      have : ("" : String) ∈ catNames doc := by
        rw [mem_catNames_iff, hl]
        rfl
      exact absurd this hnm
    · rcases hl : lookupCat doc.categories orig with _ | c
      · have hnm : orig ∉ catNames doc := by
          rw [mem_catNames_iff, hl]
          simp
        have hres : restoreResidentArchiveItem entry true doc = (doc, .noCategory) := by
          simp [restoreResidentArchiveItem, hoc, he, hl]
        refine ⟨by rw [hres]; simp [hnm], by rw [hres]; simp [hnm],
          fun _ => by rw [hres], ?_⟩
        intro orig' c hoc' hl'
        have horig : orig' = orig := by
          injection hoc' with h
          exact h.symm
        subst horig
        rw [hl] at hl'
        cases hl'
      · have hmem : orig ∈ catNames doc := by
          rw [mem_catNames_iff, hl]
          rfl
        have hres : restoreResidentArchiveItem entry true doc =
            ({ doc with categories := setCat doc.categories orig ⟨c.items ++ [stripArchiveFields entry], c.archive.filter (fun it => !(it.id == entry.id))⟩ }, .ok) := by
          simp [restoreResidentArchiveItem, hoc, he, hl]
        refine ⟨?_, ?_, ?_, ?_⟩
        · rw [hres]
          exact ⟨fun _ => ⟨orig, rfl, hmem⟩, fun _ => rfl⟩
        · rw [hres]
          constructor
          · intro hfalse
            cases hfalse
          · intro hno
            exact absurd ⟨orig, rfl, hmem⟩ hno
        · intro hne'
          rw [hres] at hne'
          exact absurd rfl hne'
        · intro orig' c' hoc' hl'
          have horig : orig' = orig := by
            injection hoc' with h
            exact h.symm
          subst horig
          rw [hl] at hl'
          have hc : c' = c := by
            injection hl' with h
            exact h.symm
          subst hc
          exact ⟨by rw [hres], rfl⟩

/-- Concrete resident archive entry stamped for category `"C"`. -/
def exArcEntry : Item :=
  { id := "1", title := "a", html := "", done := none, color := none,
    archived_at := some 2, original_category := some "C" }

/-- Concrete document with category `"C"` whose archive holds `exArcEntry`. -/
def exDocC5 : Doc :=
  { defaultDoc with categories := [("C", ⟨[], [exArcEntry]⟩)], categoryOrder := ["C"] }

/-- Witness for `restore_guard`: with the original category still present,
the confirmed restore succeeds. -/
theorem restore_guard_witness :
    (restoreResidentArchiveItem exArcEntry true exDocC5).2 = .ok :=
  (restore_guard exDocC5 exArcEntry (by decide)).1.mpr ⟨"C", rfl, by decide⟩

/- ============ Deletions and category (tab) operations
(`_del_selected_todo`, `_delete_resident_item`, `_delete_resident_tab`,
`_delete_selected_todo_archive`, `_delete_resident_archive_item`,
`_add_resident_tab`, `_rename_resident_tab`, `_rebuild_resident_tabs`,
`_on_resident_tab_moved`, C8/C9/C10) ============ -/

/-- Model of `MainWindow._del_selected_todo` together with
`TodoModel.remove`: for a valid selected row, pop the item at that row.  This
handler shows *no* confirmation dialog — the removal happens directly on the
button click, which is why the model takes no confirmation parameter. -/
def delSelectedTodo (row : Nat) (doc : Doc) : Doc :=
  if row < doc.todoItems.length then
    { doc with todoItems := doc.todoItems.eraseIdx row }
  else doc

/-- Model of `MainWindow._delete_resident_item`: locate the selected item by
UUID; if absent do nothing; otherwise ask for confirmation and, when
confirmed, pop the item from the category's active list. -/
def deleteResidentItem (catName itemId : String) (confirmed : Bool) (doc : Doc) :
    Doc :=
  match lookupCat doc.categories catName with
  | none => doc
  | some c =>
    match c.items.find? (fun it => it.id == itemId) with
    | none => doc
    | some _ =>
      if confirmed then
        { doc with categories := setCat doc.categories catName ⟨c.items.eraseP (fun x => x.id == itemId), c.archive⟩ }
      else doc

/-- Model of `MainWindow._delete_selected_todo_archive`: locate the selected
archive entry by UUID; if absent do nothing; otherwise ask for confirmation
and, when confirmed, drop every to-do archive entry with that id. -/
def deleteSelectedTodoArchive (entryId : String) (confirmed : Bool) (doc : Doc) :
    Doc :=
  match doc.todoArchive.find? (fun it => it.id == entryId) with
  | none => doc
  | some _ =>
    if confirmed then
      { doc with todoArchive := doc.todoArchive.filter (fun it => !(it.id == entryId)) }
    else doc

/-- Model of `MainWindow._delete_resident_archive_item`: locate the selected
entry by UUID across all categories' archives; if absent do nothing;
otherwise ask for confirmation and, when confirmed, drop every entry with
that id from every category's archive. -/
def deleteResidentArchiveItem (entryId : String) (confirmed : Bool) (doc : Doc) :
    Doc :=
  if doc.categories.any (fun p => containsId p.2.archive entryId) then
    if confirmed then
      { doc with categories := doc.categories.map (fun p => (p.1, ⟨p.2.items, p.2.archive.filter (fun it => !(it.id == entryId))⟩)) }
    else doc
  else doc

/-- Order list rebuilt by `_rebuild_resident_tabs` (lines 779-784): start
from the stored `category_order` and append every category key not yet
listed — stale names are deliberately *kept* (the source comment says the
old categories are not dropped). -/
def rebuildOrder (order : List String) (keys : List String) : List String :=
  keys.foldl (fun acc k => if k ∈ acc then acc else acc ++ [k]) order

/-- State effect of `MainWindow._rebuild_resident_tabs` on the document: it
reassigns `category_order` to the rebuilt list (the rest of the method builds
widgets). -/
def rebuildResidentTabs (doc : Doc) : Doc :=
  { doc with categoryOrder := rebuildOrder doc.categoryOrder (catNames doc) }

/-- Model of `MainWindow._add_resident_tab`: reject an empty name, a
duplicate name, or the reserved archive-tab label; otherwise create the
empty category, append its name to `category_order`, and rebuild the tabs. -/
def addResidentTab (name : String) (doc : Doc) : Doc :=
  if name = "" then doc
  else if name ∈ catNames doc ∨ name = archiveTabName then doc
  else rebuildResidentTabs { doc with categories := doc.categories ++ [(name, ⟨[], []⟩)], categoryOrder := doc.categoryOrder ++ [name] }

/-- Model of `MainWindow._delete_resident_tab`: the archive tab cannot be
deleted; after confirmation, pop the category (items and archive are
discarded with it), remove the name from `category_order`, and rebuild. -/
def deleteResidentTab (name : String) (confirmed : Bool) (doc : Doc) : Doc :=
  if name = archiveTabName then doc
  else if confirmed then
    rebuildResidentTabs { doc with categories := popCat doc.categories name, categoryOrder := doc.categoryOrder.filter (fun x => !(x == name)) }
  else doc

/-- Rewrite applied by `_rename_resident_tab` to each entry of the renamed
category's archive: `if arc.get("original_category") == old:
arc["original_category"] = new`. -/
def renameArcEntry (old newName : String) (arc : Item) : Item :=
  if arc.original_category == some old then
    { arc with original_category := some newName }
  else arc

/-- Model of `MainWindow._rename_resident_tab`: guards (archive tab, empty or
unchanged name, duplicate name) leave the document alone; otherwise the
category is popped and re-inserted under the new name (a fresh dict key
appends), the old name is replaced by the new one in `category_order`, every
archive entry of the category whose `original_category` equals the old name
is rewritten to the new name, and the tabs are rebuilt. -/
def renameResidentTab (old newName : String) (doc : Doc) : Doc :=
  if old = archiveTabName then doc
  else if newName = "" then doc
  else if newName = old then doc
  else if newName ∈ catNames doc ∨ newName = archiveTabName then doc
  else
    match lookupCat doc.categories old with
    | none => doc
    | some c =>
      let c' : Category := { c with archive := c.archive.map (renameArcEntry old newName) }
      rebuildResidentTabs { doc with categories := popCat doc.categories old ++ [(newName, c')], categoryOrder := doc.categoryOrder.map (fun x => if x = old then newName else x) }

/-- Model of `MainWindow._on_resident_tab_moved` after a drag of a tab (the
archive-tab cases revert the move and change nothing): `category_order` is
reassigned from the displayed tab texts with the archive tab excluded, and
the tabs are rebuilt. -/
def onResidentTabMoved (displayed : List String) (doc : Doc) : Doc :=
  rebuildResidentTabs { doc with categoryOrder := displayed.filter (fun x => !(x == archiveTabName)) }

/- ===================== Theorems: C8 ===================== -/

/-- C8 counterexample: the claim says *every* destructive operation —
including deleting an active to-do — mutates the document only after
explicit user confirmation.  `_del_selected_todo` shows no confirmation
dialog at all: clicking delete on a selected row mutates the document
directly, so the user never confirms and the document still changes. -/
theorem del_todo_no_confirmation :
    delSelectedTodo 0 { defaultDoc with todoItems := [exItem] } ≠
      { defaultDoc with todoItems := [exItem] } ∧
    (delSelectedTodo 0 { defaultDoc with todoItems := [exItem] }).todoItems = [] := by
  refine ⟨by decide, by decide⟩

/-- C8 amended: the four confirming destructive operations — delete a
resident item, delete a category, delete a to-do archive entry, delete a
resident archive entry — leave the document unchanged whenever the user
declines the confirmation dialog; deleting an active to-do, however, removes
the selected row immediately, with no confirmation consulted. -/
theorem destructive_confirmation_amended (doc : Doc) :
    (∀ catName itemId, deleteResidentItem catName itemId false doc = doc) ∧
    (∀ name, deleteResidentTab name false doc = doc) ∧
    (∀ entryId, deleteSelectedTodoArchive entryId false doc = doc) ∧
    (∀ entryId, deleteResidentArchiveItem entryId false doc = doc) ∧
    (∀ row, row < doc.todoItems.length →
      (delSelectedTodo row doc).todoItems = doc.todoItems.eraseIdx row) := by
  refine ⟨?_, ?_, ?_, ?_, ?_⟩
  · intro catName itemId
    unfold deleteResidentItem
    split
    · rfl
    · split
      · rfl
      · simp
  · intro name
    unfold deleteResidentTab
    split
    · rfl
    · simp
  · intro entryId
    unfold deleteSelectedTodoArchive
    split
    · rfl
    · simp
  · intro entryId
    unfold deleteResidentArchiveItem
    split
    · simp
    · rfl
  · intro row hrow
    unfold delSelectedTodo
    rw [if_pos hrow]

/-- Witness for `destructive_confirmation_amended`: a declined category
delete leaves a concrete document unchanged, and an unconfirmed to-do delete
at a valid row removes the row. -/
theorem destructive_confirmation_amended_witness :
    deleteResidentTab "C" false exDocC5 = exDocC5 ∧
    (delSelectedTodo 0 { defaultDoc with todoItems := [exItem] }).todoItems =
      [exItem].eraseIdx 0 :=
  ⟨(destructive_confirmation_amended exDocC5).2.1 "C",
    (destructive_confirmation_amended
      { defaultDoc with todoItems := [exItem] }).2.2.2.2 0 (by decide)⟩

/- ===================== Helpers for C9/C10 ===================== -/

/-- Helper: one step of the rebuild fold. -/
theorem rebuildOrder_cons (order : List String) (k : String) (keys : List String) :
    rebuildOrder order (k :: keys) =
      rebuildOrder (if k ∈ order then order else order ++ [k]) keys := rfl

/-- Helper: the rebuild fold never drops an element already listed. -/
theorem rebuildOrder_mem_of_mem :
    ∀ (keys order : List String) (x : String), x ∈ order →
      x ∈ rebuildOrder order keys
  | [], _, _, h => h
  | k :: rest, order, x, h => by
      rw [rebuildOrder_cons]
      by_cases hk : k ∈ order
      · rw [if_pos hk]
        exact rebuildOrder_mem_of_mem rest order x h
      · rw [if_neg hk]
        exact rebuildOrder_mem_of_mem rest _ x (List.mem_append_left _ h)

/-- Helper: after the rebuild fold, every key is listed. -/
theorem rebuildOrder_mem :
    ∀ (keys order : List String) (x : String), x ∈ keys →
      x ∈ rebuildOrder order keys
  | [], _, _, h => absurd h (List.not_mem_nil _)
  | k :: rest, order, x, h => by
      rw [rebuildOrder_cons]
      rcases List.mem_cons.mp h with rfl | hrest
      · by_cases hk : x ∈ order
        · rw [if_pos hk]
          exact rebuildOrder_mem_of_mem rest order x hk
        · rw [if_neg hk]
          exact rebuildOrder_mem_of_mem rest _ x
            (List.mem_append_right _ (List.mem_singleton_self x))
      · by_cases hk : k ∈ order
        · rw [if_pos hk]
          exact rebuildOrder_mem rest order x hrest
        · rw [if_neg hk]
          exact rebuildOrder_mem rest _ x hrest

/-- Helper: when every key is already listed, the rebuild changes nothing. -/
theorem rebuildOrder_eq_self :
    ∀ (keys order : List String), (∀ k ∈ keys, k ∈ order) →
      rebuildOrder order keys = order
  | [], _, _ => rfl
  | k :: rest, order, h => by
      rw [rebuildOrder_cons, if_pos (h k (List.mem_cons_self k rest))]
      exact rebuildOrder_eq_self rest order (fun k' hk' => h k' (List.mem_cons_of_mem k hk'))

/-- Helper: a document whose keys are all listed is unchanged by the tab
rebuild. -/
theorem rebuildResidentTabs_eq_self (d : Doc)
    (h : ∀ k ∈ catNames d, k ∈ d.categoryOrder) : rebuildResidentTabs d = d := by
  rw [rebuildResidentTabs, rebuildOrder_eq_self _ _ h]

/-- Helper: the tab rebuild preserves the order-permutation invariant. -/
theorem rebuild_preserves (d : Doc) (h : d.categoryOrder.Perm (catNames d)) :
    (rebuildResidentTabs d).categoryOrder.Perm
      (catNames (rebuildResidentTabs d)) := by
  rw [rebuildResidentTabs_eq_self d (fun k hk => h.mem_iff.mpr hk)]
  exact h

/-- Helper: popping a key erases it from the key list. -/
theorem map_fst_popCat :
    ∀ (cats : List (String × Category)) (name : String),
      (popCat cats name).map Prod.fst =
        (cats.map Prod.fst).eraseP (fun k => k == name)
  | [], _ => rfl
  | p :: t, name => by
      by_cases hp : (p.1 == name) = true
      · simp [popCat, List.eraseP_cons, hp]
      · simp [popCat, List.eraseP_cons, hp] at *
        exact map_fst_popCat t name

/-- Helper: on a duplicate-free list, erasing the first match is the same as
filtering every match. -/
theorem eraseP_eq_filter_of_nodup :
    ∀ (l : List String) (name : String), l.Nodup →
      l.eraseP (fun k => k == name) = l.filter (fun k => !(k == name))
  | [], _, _ => rfl
  | a :: t, name, h => by
      rcases List.nodup_cons.mp h with ⟨ha, ht⟩
      by_cases hp : (a == name) = true
      · have hae : a = name := by simpa using hp
        subst hae
        rw [List.eraseP_cons_of_pos (by simp), List.filter_cons_of_neg (by simp)]
        symm
        rw [List.filter_eq_self]
        intro b hb
        simp only [Bool.not_eq_true', beq_eq_false_iff_ne, ne_eq]
        exact fun hba => ha (hba ▸ hb)
      · rw [List.eraseP_cons_of_neg (p := fun k : String => k == name) hp,
          List.filter_cons_of_pos (by simp [hp]),
          eraseP_eq_filter_of_nodup t name ht]

/-- Helper: replacing a name absent from a list is the identity. -/
theorem map_replace_id (old newName : String) :
    ∀ (l : List String), old ∉ l →
      l.map (fun x => if x = old then newName else x) = l
  | [], _ => rfl
  | a :: t, h => by
      have hao : ¬a = old := fun hc => h (hc ▸ List.mem_cons_self a t)
      rw [List.map_cons, if_neg hao,
        map_replace_id old newName t (fun hc => h (List.mem_cons_of_mem a hc))]

/-- Helper: on a duplicate-free list containing the old name, the rename map
permutes to erasing the old name and appending the new one. -/
theorem map_replace_perm (old newName : String) :
    ∀ (l : List String), l.Nodup → old ∈ l →
      (l.map (fun x => if x = old then newName else x)).Perm
        (l.eraseP (fun k => k == old) ++ [newName])
  | [], _, h => absurd h (List.not_mem_nil _)
  | a :: t, hnd, h => by
      rcases List.nodup_cons.mp hnd with ⟨ha, ht⟩
      by_cases hao : a = old
      · subst hao
        rw [List.map_cons, if_pos rfl, List.eraseP_cons_of_pos (by simp),
          map_replace_id a newName t ha]
        exact (List.perm_append_singleton newName t).symm
      · have hot : old ∈ t := by
          rcases List.mem_cons.mp h with h1 | h1
          · exact absurd h1.symm hao
          · exact h1
        rw [List.map_cons, if_neg hao,
          List.eraseP_cons_of_neg (by simp [hao]), List.cons_append]
        exact (map_replace_perm old newName t ht hot).cons a

/- ===================== Theorems: C9 ===================== -/

/-- Concrete document whose stored `category_order` lists a stale name `"B"`
that no longer exists in `categories`. -/
def exDocC9 : Doc :=
  { defaultDoc with categories := [("A", ⟨[], []⟩)], categoryOrder := ["A", "B"] }

/-- C9 counterexample: the claim says that after a tab rebuild,
`category_order` contains no names outside `categories.keys()`.  The rebuild
deliberately keeps old names (its source comment says old categories are not
dropped): rebuilding a document whose stored order still lists the vanished
category `"B"` leaves `"B"` in `category_order` even though it is not a key
of `categories`. -/
theorem category_order_counterexample :
    (rebuildResidentTabs exDocC9).categoryOrder = ["A", "B"] ∧
    "B" ∈ (rebuildResidentTabs exDocC9).categoryOrder ∧
    "B" ∉ catNames (rebuildResidentTabs exDocC9) := by
  refine ⟨by decide, by decide, by decide⟩

/-- C9 amended: the tab rebuild guarantees only containment — every name in
`categories.keys()` appears in `category_order` afterwards, while stale
names already listed are kept.  The exactly-once/no-other-names property is
*preserved* rather than established: when `category_order` is a permutation
of `categories.keys()` (as it is for documents the app itself built), the
rebuild is the identity, and each category create, rename, delete, and
tab-reorder operation keeps `category_order` a permutation of
`categories.keys()`. -/
theorem category_order_amended (doc : Doc) :
    (∀ k ∈ catNames doc, k ∈ (rebuildResidentTabs doc).categoryOrder) ∧
    (doc.categoryOrder.Perm (catNames doc) → rebuildResidentTabs doc = doc) ∧
    (∀ name, doc.categoryOrder.Perm (catNames doc) →
      (addResidentTab name doc).categoryOrder.Perm
        (catNames (addResidentTab name doc))) ∧
    (∀ old newName, doc.categoryOrder.Perm (catNames doc) →
      (catNames doc).Nodup →
      (renameResidentTab old newName doc).categoryOrder.Perm
        (catNames (renameResidentTab old newName doc))) ∧
    (∀ name confirmed, doc.categoryOrder.Perm (catNames doc) →
      (catNames doc).Nodup →
      (deleteResidentTab name confirmed doc).categoryOrder.Perm
        (catNames (deleteResidentTab name confirmed doc))) ∧
    (∀ displayed,
      (displayed.filter (fun x => !(x == archiveTabName))).Perm doc.categoryOrder →
      doc.categoryOrder.Perm (catNames doc) →
      (onResidentTabMoved displayed doc).categoryOrder.Perm
        (catNames (onResidentTabMoved displayed doc))) := by
  refine ⟨?_, ?_, ?_, ?_, ?_, ?_⟩
  · intro k hk
    exact rebuildOrder_mem (catNames doc) doc.categoryOrder k hk
  · intro hperm
    exact rebuildResidentTabs_eq_self doc (fun k hk => hperm.mem_iff.mpr hk)
  · intro name hperm
    by_cases h1 : name = ""
    · rw [addResidentTab, if_pos h1]
      exact hperm
    · by_cases h2 : name ∈ catNames doc ∨ name = archiveTabName
      · rw [addResidentTab, if_neg h1, if_pos h2]
        exact hperm
      · rw [addResidentTab, if_neg h1, if_neg h2]
        apply rebuild_preserves
        show (doc.categoryOrder ++ [name]).Perm
          (catNames { doc with categories := doc.categories ++ [(name, ⟨[], []⟩)], categoryOrder := doc.categoryOrder ++ [name] })
        have hkeys : catNames { doc with categories := doc.categories ++ [(name, ⟨[], []⟩)], categoryOrder := doc.categoryOrder ++ [name] } = catNames doc ++ [name] := by
          simp [catNames]
        rw [hkeys]
        exact hperm.append_right [name]
  · intro old newName hperm hnd
    rw [renameResidentTab]
    by_cases h1 : old = archiveTabName
    · rw [if_pos h1]
      exact hperm
    rw [if_neg h1]
    by_cases h2 : newName = ""
    · rw [if_pos h2]
      exact hperm
    rw [if_neg h2]
    by_cases h3 : newName = old
    · rw [if_pos h3]
      exact hperm
    rw [if_neg h3]
    by_cases h4 : newName ∈ catNames doc ∨ newName = archiveTabName
    · rw [if_pos h4]
      exact hperm
    rw [if_neg h4]
    cases hl : lookupCat doc.categories old with
    | none => exact hperm
    | some c =>
      apply rebuild_preserves
      have hold : old ∈ catNames doc := by
        rw [mem_catNames_iff, hl]
        rfl
      have hkeys : catNames { doc with categories := popCat doc.categories old ++ [(newName, { c with archive := c.archive.map (renameArcEntry old newName) })], categoryOrder := doc.categoryOrder.map (fun x => if x = old then newName else x) } = (catNames doc).eraseP (fun k => k == old) ++ [newName] := by
        show (popCat doc.categories old ++ [(newName, _)]).map Prod.fst = _
        rw [List.map_append, map_fst_popCat]
        rfl
      rw [hkeys]
      exact (hperm.map _).trans (map_replace_perm old newName (catNames doc) hnd hold)
  · intro name confirmed hperm hnd
    rw [deleteResidentTab]
    by_cases h1 : name = archiveTabName
    · rw [if_pos h1]
      exact hperm
    rw [if_neg h1]
    by_cases h2 : confirmed = true
    · rw [if_pos h2]
      apply rebuild_preserves
      have hkeys : catNames { doc with categories := popCat doc.categories name, categoryOrder := doc.categoryOrder.filter (fun x => !(x == name)) } = (catNames doc).filter (fun k => !(k == name)) := by
        show (popCat doc.categories name).map Prod.fst = _
        rw [map_fst_popCat]
        show (catNames doc).eraseP (fun k => k == name) =
          (catNames doc).filter (fun k => !(k == name))
        exact eraseP_eq_filter_of_nodup _ _ hnd
      rw [hkeys]
      exact hperm.filter _
    · rw [if_neg h2]
      exact hperm
  · intro displayed hdisp hperm
    apply rebuild_preserves
    exact hdisp.trans hperm

/-- Witness for `category_order_amended`: on a document satisfying the
invariant, the tab rebuild is the identity. -/
theorem category_order_amended_witness :
    rebuildResidentTabs exDocC5 = exDocC5 :=
  (category_order_amended exDocC5).2.1 (by decide)

/- ===================== Theorems: C10 ===================== -/

/-- C10 (rename keeps archive references valid): when a category rename from
`old` to `newName` passes all guards, the category is re-registered under the
new name with every archive entry whose `original_category` equals the old
name rewritten to the new name; the rewriting really retargets such entries
to `newName`; the new name is a key of `categories` afterwards, so a later
restore of any rewritten entry finds its target category; and (under the
order-permutation invariant) the old name is replaced by the new name in
`category_order`. -/
theorem rename_keeps_archive_refs (doc : Doc) (old newName : String)
    (c : Category)
    (h1 : old ≠ archiveTabName) (h2 : newName ≠ "") (h3 : newName ≠ old)
    (h4 : ¬(newName ∈ catNames doc ∨ newName = archiveTabName))
    (hlook : lookupCat doc.categories old = some c) :
    (lookupCat (renameResidentTab old newName doc).categories newName =
      some { c with archive := c.archive.map (renameArcEntry old newName) }) ∧
    (∀ arc : Item, arc.original_category = some old →
      (renameArcEntry old newName arc).original_category = some newName) ∧
    newName ∈ catNames (renameResidentTab old newName doc) ∧
    (doc.categoryOrder.Perm (catNames doc) → (catNames doc).Nodup →
      (renameResidentTab old newName doc).categoryOrder =
        doc.categoryOrder.map (fun x => if x = old then newName else x)) := by
  have hop : renameResidentTab old newName doc =
      rebuildResidentTabs { doc with categories := popCat doc.categories old ++ [(newName, { c with archive := c.archive.map (renameArcEntry old newName) })], categoryOrder := doc.categoryOrder.map (fun x => if x = old then newName else x) } := by
    simp [renameResidentTab, h1, h2, h3, h4, hlook]
  have hcats : (renameResidentTab old newName doc).categories =
      popCat doc.categories old ++ [(newName, { c with archive := c.archive.map (renameArcEntry old newName) })] := by
    rw [hop]
    rfl
  have hnone : (popCat doc.categories old).find?
      (fun p => p.1 == newName) = none := by
    rw [List.find?_eq_none]
    intro q hq hbeq
    have hqn : q.1 = newName := by simpa using hbeq
    have hqmem : q.1 ∈ catNames doc := by
      rw [catNames]
      exact List.mem_map_of_mem Prod.fst (List.mem_of_mem_eraseP hq)
    exact h4 (Or.inl (hqn ▸ hqmem))
  have hfound : lookupCat (renameResidentTab old newName doc).categories newName =
      some { c with archive := c.archive.map (renameArcEntry old newName) } := by
    rw [hcats, lookupCat, List.find?_append, hnone]
    simp [List.find?]
  refine ⟨hfound, ?_, ?_, ?_⟩
  · intro arc harc
    rw [renameArcEntry, if_pos (by simp [harc])]
  · rw [mem_catNames_iff, hfound]
    rfl
  · intro hperm hnd
    have hold : old ∈ catNames doc := by
      rw [mem_catNames_iff, hlook]
      rfl
    have hkeys : catNames { doc with categories := popCat doc.categories old ++ [(newName, { c with archive := c.archive.map (renameArcEntry old newName) })], categoryOrder := doc.categoryOrder.map (fun x => if x = old then newName else x) } = (catNames doc).eraseP (fun k => k == old) ++ [newName] := by
      show (popCat doc.categories old ++ [(newName, _)]).map Prod.fst = _
      rw [List.map_append, map_fst_popCat]
      rfl
    have hperm2 : (doc.categoryOrder.map (fun x => if x = old then newName else x)).Perm
        (catNames { doc with categories := popCat doc.categories old ++ [(newName, { c with archive := c.archive.map (renameArcEntry old newName) })], categoryOrder := doc.categoryOrder.map (fun x => if x = old then newName else x) }) := by
      rw [hkeys]
      exact (hperm.map _).trans (map_replace_perm old newName (catNames doc) hnd hold)
    rw [hop, rebuildResidentTabs_eq_self _ (fun k hk => hperm2.mem_iff.mpr hk)]

/-- Witness for `rename_keeps_archive_refs`: renaming `"C"` to `"D"` re-keys
the category and rewrites the archived entry's `original_category`. -/
theorem rename_keeps_archive_refs_witness :
    lookupCat (renameResidentTab "C" "D" exDocC5).categories "D" =
      some { (⟨[], [exArcEntry]⟩ : Category) with archive := ([exArcEntry] : List Item).map (renameArcEntry "C" "D") } :=
  (rename_keeps_archive_refs exDocC5 "C" "D" ⟨[], [exArcEntry]⟩ (by decide)
    (by decide) (by decide) (by decide) (by decide)).1
